import Mathlib

/-!
Verification of the expenses-dashboard data pipeline (`app.py`, `main.py`).

The pipeline is embedded shallowly: a pandas DataFrame of transactions is a
`List RawRow`, where the `date` and `amount` fields hold the results of
`pd.to_datetime(..., errors="coerce")` and `pd.to_numeric(..., errors="coerce")`
(`none` = NaT/NaN, i.e. a malformed value coerced to missing), text cells are
`List Char`, and a missing category cell is `none`.  Python's `str.strip` /
`str.lower` / `str.upper` become `trimL` / `toLowerL` / `toUpperL` on
`List Char`.
-/

namespace Expenses

/-- A calendar date, as produced by `pd.to_datetime` (date component only). -/
structure Date where
  year : Nat
  month : Nat
  day : Nat
deriving DecidableEq, Repr

/-- A month period, as produced by `.dt.to_period("M")`. -/
structure Month where
  year : Nat
  month : Nat
deriving DecidableEq, Repr

/-- An input transaction row after the two `errors="coerce"` parses:
`date`/`amount` are `none` when the raw cell could not be parsed. -/
structure RawRow where
  date : Option Date
  amount : Option ℚ
  rtype : List Char
  category : Option (List Char)
deriving DecidableEq, Repr

/-- A cleaned row of the DataFrame returned by `load_data`, with the derived
`month`, `month_start` and `spend` columns. -/
structure Row where
  date : Option Date
  amount : Option ℚ
  rtype : List Char
  category : List Char
  month : Option Month
  month_start : Option Date
  spend : Option ℚ
deriving DecidableEq, Repr

/-- Python `str.lower` (basic-latin case folding, as in `Char.toLower`). -/
def toLowerL (s : List Char) : List Char := s.map Char.toLower

/-- Python `str.upper`. -/
def toUpperL (s : List Char) : List Char := s.map Char.toUpper

/-- Python `str.strip`: drop whitespace from both ends. -/
def trimL (s : List Char) : List Char :=
  ((s.dropWhile Char.isWhitespace).reverse.dropWhile Char.isWhitespace).reverse

/-- `.dt.to_period("M")` on a date. -/
def monthOf (d : Date) : Month := ⟨d.year, d.month⟩

/-- `.dt.to_timestamp()` on a month period: the first day of the month. -/
def monthStartOf (m : Month) : Date := ⟨m.year, m.month, 1⟩

/-- The `excluded_categories` set of `load_data`
(`{"transfer/pmt", "investment", "rental inc"}`). -/
def excluded_categories : List (List Char) :=
  ["transfer/pmt".data, "investment".data, "rental inc".data]

/-- The category key tested by `load_data`'s exclusion filter:
`df["category"].astype(str).str.strip().str.lower()`.  `astype(str)` renders a
missing category as the literal string `"nan"`. -/
def catKey (c : Option (List Char)) : List Char :=
  toLowerL (trimL (c.getD "nan".data))

/-- The normalized category stored by `load_data`:
`df["category"].fillna("(uncategorized)").str.strip().str.lower()`. -/
def normCategory (c : Option (List Char)) : List Char :=
  toLowerL (trimL (c.getD "(uncategorized)".data))

/-- The type filter `df["type"].str.upper() == "DEBIT"`. -/
def typeIsDebit (t : List Char) : Bool :=
  decide (toUpperL t = "DEBIT".data)

/-- The days-of-month of the parsed dates falling in month `m`
(the group of `m` in `df.groupby("month")["date"]`, projected to days). -/
def monthDays (rows : List RawRow) (m : Month) : List Nat :=
  rows.filterMap fun r =>
    match r.date with
    | some d => if monthOf d = m then some d.day else none
    | none => none

/-- `df.groupby("month")["date"].max().dt.day` for month `m` (`0` when the
month has no parsed date, which never passes the `>= 25` test). -/
def maxDayInMonth (rows : List RawRow) (m : Month) : Nat :=
  (monthDays rows m).foldl Nat.max 0

/-- Membership of `m` in `coverage_months`: the month's latest parsed
transaction date has day-of-month at least 25. -/
def isCoverageMonth (rows : List RawRow) (m : Month) : Bool :=
  decide (25 ≤ maxDayInMonth rows m)

/-- The coverage test `df["month"].isin(coverage_months)` applied to one row's
parsed date; a row with an unparseable date (`NaT` month) never passes. -/
def dateCovered (rows : List RawRow) (od : Option Date) : Bool :=
  match od with
  | some d => isCoverageMonth rows (monthOf d)
  | none => false

/-- The rows surviving `load_data`'s three successive row filters, in order:
the month-coverage filter (computed over the full parsed table), the
`type == "DEBIT"` filter, and the excluded-categories filter. -/
def keptRows (rows : List RawRow) : List RawRow :=
  ((rows.filter fun r => dateCovered rows r.date).filter
      fun r => typeIsDebit r.rtype).filter
    fun r => !(decide (catKey r.category ∈ excluded_categories))

/-- The column derivations `load_data` applies to each retained row:
`month` (period of the date), `spend = -amount`, `month_start`
(first day of the month), and the category normalization. -/
def cleanRow (r : RawRow) : Row :=
  { date := r.date
    amount := r.amount
    rtype := r.rtype
    category := normCategory r.category
    month := r.date.map monthOf
    month_start := r.date.map fun d => monthStartOf (monthOf d)
    spend := r.amount.map fun a => -a }

/-- `load_data` of `app.py`, from the point where both `errors="coerce"`
parses have produced the `date` and `amount` columns. -/
def load_data (rows : List RawRow) : List Row :=
  (keptRows rows).map cleanRow

/-- `load_expenses` of `main.py`: keep the rows whose
`astype(str).str.strip().str.lower()` category differs from `"transfer/pmt"`. -/
def load_expenses (rows : List RawRow) : List RawRow :=
  rows.filter fun r => !(decide (catKey r.category = "transfer/pmt".data))

/-- A pandas `sum()` over the `spend` column: missing values contribute 0. -/
def spendSum (df : List Row) : ℚ :=
  (df.map fun r => (r.spend.getD 0)).sum

/-- Comparison of Python `datetime.date` values: lexicographic on
(year, month, day), non-strict. -/
def dateLE (a b : Date) : Bool :=
  if a.year ≠ b.year then decide (a.year < b.year)
  else if a.month ≠ b.month then decide (a.month < b.month)
  else decide (a.day ≤ b.day)

/-- The date-range mask of `main`:
`(df["date"].dt.date >= start_date) & (df["date"].dt.date <= end_date)`. -/
def inDateRange (sd ed : Date) (r : Row) : Bool :=
  match r.date with
  | some d => dateLE sd d && dateLE d ed
  | none => false

/-- `main`'s date-range filter; `none` models a `date_range` widget value that
is not a 2-tuple, in which case no filtering happens. -/
def applyDateRange (df : List Row) (range : Option (Date × Date)) : List Row :=
  match range with
  | some (sd, ed) => df.filter (inDateRange sd ed)
  | none => df

/-- `main`'s category filter: `if selected_categories:` then keep rows whose
category is in the selection; an empty selection skips the filter. -/
def applyCategoryFilter (df : List Row) (cats : List (List Char)) : List Row :=
  match cats with
  | [] => df
  | _ => df.filter fun r => decide (r.category ∈ cats)

/-- Outcome of `main`'s empty-data gating: either one of the two
`st.warning` early returns, or the filtered table that all later charts,
tables and insights are rendered from. -/
inductive MainResult where
  | warnNoData
  | warnNoFiltered
  | rendered (df : List Row)
deriving DecidableEq, Repr

/-- The empty-data gating of `main`: warn and return when `load_data`'s result
is empty, else apply the two sidebar filters and warn and return when the
result is empty, else proceed to rendering. -/
def mainFilterStage (df : List Row) (range : Option (Date × Date))
    (cats : List (List Char)) : MainResult :=
  if df.isEmpty then .warnNoData
  else
    if (applyCategoryFilter (applyDateRange df range) cats).isEmpty then .warnNoFiltered
    else .rendered (applyCategoryFilter (applyDateRange df range) cats)

/-- The distinct categories of the filtered table (the columns of
`pivot_corr`). -/
def categoriesOf (df : List Row) : List (List Char) :=
  (df.map fun r => r.category).dedup

/-- The distinct `month_start` values for which category `c` has at least one
row (the non-missing cells of column `c` of `pivot_corr`). -/
def catMonths (df : List Row) (c : List Char) : List (Option Date) :=
  ((df.filter fun r => decide (r.category = c)).map fun r => r.month_start).dedup

/-- `pivot_corr.count()` for category `c`: in how many distinct months it has
spend data. -/
def catMonthCount (df : List Row) (c : List Char) : Nat :=
  (catMonths df c).length

/-- `min_months = 4` in `main`. -/
def min_months : Nat := 4

/-- `eligible = pivot_corr.count() >= min_months`: the categories entering
`corr_data`. -/
def eligibleCats (df : List Row) : List (List Char) :=
  (categoriesOf df).filter fun c => decide (min_months ≤ catMonthCount df c)

/-- Outcome of the correlation section of `main`: either the heatmap (and the
correlation summary bullets) over the eligible categories, or the
`st.info` message. -/
inductive CorrResult where
  | heatmap (cats : List (List Char))
  | info
deriving DecidableEq, Repr

/-- The correlation gating of `main`: render the heatmap over `corr_data`'s
columns when `corr_data.shape[1] >= 2`, else show the informational message
(leaving `corr_summary` empty). -/
def corrStage (df : List Row) : CorrResult :=
  if 2 ≤ (eligibleCats df).length then .heatmap (eligibleCats df) else .info

/-- A sample well-formed debit row (its date covers January 2024). -/
def wDate : Date := ⟨2024, 1, 25⟩

/-- A sample well-formed debit row dated `wDate`. -/
def wRow : RawRow :=
  { date := some wDate, amount := some (-50), rtype := "DEBIT".data,
    category := some " Groceries ".data }

/-- A sample internal-transfer row in the same covered month as `wRow`. -/
def xferRow : RawRow :=
  { date := some ⟨2024, 1, 26⟩, amount := some (-900), rtype := "DEBIT".data,
    category := some " Transfer/PMT ".data }

/-- A debit row whose parsed amount is positive (e.g. a refund posted as a
debit-type transaction). -/
def c3row : RawRow :=
  { date := some ⟨2024, 3, 27⟩, amount := some 40, rtype := "DEBIT".data,
    category := some "refund".data }

/-- A row whose date and amount both failed to parse. -/
def badRow : RawRow :=
  { date := none, amount := none, rtype := "DEBIT".data, category := none }

/-- A debit row with a missing category cell. -/
def uncatRow : RawRow :=
  { date := some ⟨2024, 2, 26⟩, amount := some (-10), rtype := "Debit".data,
    category := none }

end Expenses

section CharLemmas

/-- `Char.toLower` unfolded. -/
theorem char_toLower_eq (c : Char) :
    Char.toLower c = if c.toNat ≥ 65 ∧ c.toNat ≤ 90 then Char.ofNat (c.toNat + 32) else c :=
  rfl

/-- `Char.ofNat` on a small codepoint round-trips through `toNat`. -/
theorem char_toNat_ofNat {n : Nat} (h : n < 55296) : (Char.ofNat n).toNat = n := by
  unfold Char.ofNat
  rw [dif_pos (Or.inl h)]
  rfl

/-- A character with codepoint above 32 is not whitespace. -/
theorem char_not_ws_of_large (c : Char) (h : 33 ≤ c.toNat) : c.isWhitespace = false := by
  have h1 : c ≠ ' ' := fun e => absurd (e ▸ h) (by decide)
  have h2 : c ≠ '\t' := fun e => absurd (e ▸ h) (by decide)
  have h3 : c ≠ '\r' := fun e => absurd (e ▸ h) (by decide)
  have h4 : c ≠ '\n' := fun e => absurd (e ▸ h) (by decide)
  simp [Char.isWhitespace, h1, h2, h3, h4]

/-- Lowercasing is idempotent on characters. -/
theorem char_toLower_toLower (c : Char) :
    Char.toLower (Char.toLower c) = Char.toLower c := by
  by_cases h : c.toNat ≥ 65 ∧ c.toNat ≤ 90
  · have h1 : Char.toLower c = Char.ofNat (c.toNat + 32) := by
      rw [char_toLower_eq, if_pos h]
    have h2 : (Char.ofNat (c.toNat + 32)).toNat = c.toNat + 32 :=
      char_toNat_ofNat (by omega)
    rw [h1, char_toLower_eq, if_neg (by rw [h2]; omega)]
  · have h1 : Char.toLower c = c := by rw [char_toLower_eq, if_neg h]
    rw [h1]
    exact h1

/-- Lowercasing preserves whitespace-ness of a character. -/
theorem char_isWhitespace_toLower (c : Char) :
    (Char.toLower c).isWhitespace = c.isWhitespace := by
  by_cases h : c.toNat ≥ 65 ∧ c.toNat ≤ 90
  · have h1 : Char.toLower c = Char.ofNat (c.toNat + 32) := by
      rw [char_toLower_eq, if_pos h]
    have h2 : (Char.ofNat (c.toNat + 32)).toNat = c.toNat + 32 :=
      char_toNat_ofNat (by omega)
    rw [h1, char_not_ws_of_large _ (by rw [h2]; omega),
      char_not_ws_of_large c (by omega)]
  · have h1 : Char.toLower c = c := by rw [char_toLower_eq, if_neg h]
    rw [h1]

end CharLemmas

section DropWhileLemmas

variable {α : Type}

/-- If `dropWhile` leaves a nonempty list unchanged, its head fails the predicate. -/
theorem dropWhile_head_false (p : α → Bool) (x : α) (xs : List α)
    (h : List.dropWhile p (x :: xs) = x :: xs) : p x = false := by
  by_cases hx : p x = true
  · exfalso
    rw [List.dropWhile_cons_of_pos hx] at h
    have hlen := (List.dropWhile_sublist (l := xs) p).length_le
    rw [h] at hlen
    simp at hlen
  · simpa using hx

/-- A list whose head (if any) fails the predicate is unchanged by `dropWhile`. -/
theorem dropWhile_self_of_head_false (p : α → Bool) (l : List α)
    (h : ∀ x xs, l = x :: xs → p x = false) : List.dropWhile p l = l := by
  cases l with
  | nil => rfl
  | cons x xs =>
    rw [List.dropWhile_cons_of_neg]
    simp [h x xs rfl]

/-- `dropWhile` is idempotent. -/
theorem dropWhile_dropWhile (p : α → Bool) (l : List α) :
    List.dropWhile p (List.dropWhile p l) = List.dropWhile p l := by
  apply dropWhile_self_of_head_false
  intro x xs h
  have hh := List.head?_dropWhile_not p l
  rw [h] at hh
  simpa using hh

/-- Back-trimming a front-clean list keeps it front-clean. -/
theorem dropWhile_reverse_dropWhile_front (p : α → Bool) (l : List α)
    (hl : l.dropWhile p = l) :
    List.dropWhile p ((l.reverse.dropWhile p).reverse) = (l.reverse.dropWhile p).reverse := by
  apply dropWhile_self_of_head_false
  intro x xs hx
  have hsplit : l.reverse.takeWhile p ++ l.reverse.dropWhile p = l.reverse :=
    List.takeWhile_append_dropWhile p l.reverse
  have hrev := congrArg List.reverse hsplit
  simp only [List.reverse_append, List.reverse_reverse] at hrev
  have hA2 : x :: (xs ++ (l.reverse.takeWhile p).reverse) = l := by
    rw [← List.cons_append, ← hx]
    exact hrev
  have hxa : List.dropWhile p (x :: (xs ++ (l.reverse.takeWhile p).reverse))
      = x :: (xs ++ (l.reverse.takeWhile p).reverse) := by
    rw [hA2]
    exact hl
  exact dropWhile_head_false p x _ hxa

end DropWhileLemmas

namespace Expenses

/-- `str.strip` is idempotent. -/
theorem trimL_trimL (s : List Char) : trimL (trimL s) = trimL s := by
  have hAclean : (s.dropWhile Char.isWhitespace).dropWhile Char.isWhitespace
      = s.dropWhile Char.isWhitespace := dropWhile_dropWhile _ s
  have hfront : (trimL s).dropWhile Char.isWhitespace = trimL s :=
    dropWhile_reverse_dropWhile_front Char.isWhitespace
      (s.dropWhile Char.isWhitespace) hAclean
  have h2 : trimL (trimL s)
      = (((trimL s).dropWhile Char.isWhitespace).reverse.dropWhile Char.isWhitespace).reverse :=
    rfl
  rw [h2, hfront]
  show (((s.dropWhile Char.isWhitespace).reverse.dropWhile
      Char.isWhitespace).reverse.reverse.dropWhile Char.isWhitespace).reverse = trimL s
  rw [List.reverse_reverse, dropWhile_dropWhile]
  rfl

/-- `dropWhile isWhitespace` commutes with lowercasing. -/
theorem dropWhile_ws_map_toLower (l : List Char) :
    List.dropWhile Char.isWhitespace (l.map Char.toLower)
      = (List.dropWhile Char.isWhitespace l).map Char.toLower := by
  have hpf : (Char.isWhitespace ∘ Char.toLower) = Char.isWhitespace :=
    funext char_isWhitespace_toLower
  rw [List.dropWhile_map, hpf]

/-- `str.strip` commutes with `str.lower`. -/
theorem trimL_toLowerL (s : List Char) : trimL (toLowerL s) = toLowerL (trimL s) := by
  unfold trimL toLowerL
  rw [dropWhile_ws_map_toLower, ← List.map_reverse, dropWhile_ws_map_toLower,
    ← List.map_reverse]

/-- `str.lower` is idempotent. -/
theorem toLowerL_toLowerL (s : List Char) : toLowerL (toLowerL s) = toLowerL s := by
  unfold toLowerL
  rw [List.map_map]
  have : (Char.toLower ∘ Char.toLower) = Char.toLower := funext char_toLower_toLower
  rw [this]

/-- Membership in the retained-row list of `load_data`, unfolded. -/
theorem mem_keptRows (rows : List RawRow) (r : RawRow) :
    r ∈ keptRows rows ↔
      r ∈ rows ∧ dateCovered rows r.date = true ∧ typeIsDebit r.rtype = true
        ∧ catKey r.category ∉ excluded_categories := by
  simp only [keptRows, List.mem_filter, and_assoc, Bool.not_eq_true',
    decide_eq_false_iff_not]

/-- Membership in `load_data`'s output, unfolded. -/
theorem mem_load_data (rows : List RawRow) (s : Row) :
    s ∈ load_data rows ↔ ∃ r ∈ keptRows rows, cleanRow r = s := by
  simp [load_data, List.mem_map]

/-- A bound below a left fold of `Nat.max` is met by the seed or by an element. -/
theorem le_foldl_max (l : List Nat) (a k : Nat) (h : k ≤ l.foldl Nat.max a) :
    k ≤ a ∨ ∃ x ∈ l, k ≤ x := by
  induction l generalizing a with
  | nil => exact Or.inl h
  | cons x xs ih =>
    rw [List.foldl_cons] at h
    rcases ih (Nat.max a x) h with h1 | ⟨y, hy, hky⟩
    · rcases le_max_iff.mp h1 with h2 | h2
      · exact Or.inl h2
      · exact Or.inr ⟨x, List.mem_cons_self x xs, h2⟩
    · exact Or.inr ⟨y, List.mem_cons_of_mem x hy, hky⟩

/-- Claim C1: a row appears in `load_data`'s output for calendar month `m`
only if some input row has a parsed date in `m` with day-of-month at least 25
(the month-coverage filter). -/
theorem month_coverage_filter (rows : List RawRow) (s : Row)
    (hs : s ∈ load_data rows) (d : Date) (hd : s.date = some d) :
    ∃ r ∈ rows, ∃ d2, r.date = some d2 ∧ monthOf d2 = monthOf d ∧ 25 ≤ d2.day := by
  rcases (mem_load_data rows s).mp hs with ⟨r0, hr0, hclean⟩
  obtain ⟨-, hcov, -, -⟩ := (mem_keptRows rows r0).mp hr0
  have hdate : r0.date = some d := by
    have h1 : (cleanRow r0).date = s.date := by rw [hclean]
    rw [hd] at h1
    exact h1
  rw [hdate] at hcov
  have hcov2 : 25 ≤ maxDayInMonth rows (monthOf d) := by
    simpa [dateCovered, isCoverageMonth] using hcov
  rcases le_foldl_max (monthDays rows (monthOf d)) 0 25 hcov2 with h0 | ⟨x, hx, hxle⟩
  · omega
  · rcases List.mem_filterMap.mp hx with ⟨r, hr, hfr⟩
    cases hdr : r.date with
    | none =>
      rw [hdr] at hfr
      simp at hfr
    | some d2 =>
      rw [hdr] at hfr
      by_cases hm : monthOf d2 = monthOf d
      · simp only [hm, if_true] at hfr
        have hday : d2.day = x := Option.some.inj hfr
        exact ⟨r, hr, d2, hdr, hm, by omega⟩
      · simp [hm] at hfr

/-- Witness for C1 at a concrete one-row table. -/
theorem month_coverage_filter_witness :
    ∃ r ∈ [wRow], ∃ d2, r.date = some d2
      ∧ monthOf d2 = monthOf wDate ∧ 25 ≤ d2.day :=
  month_coverage_filter [wRow] (cleanRow wRow) (by decide) wDate (by decide)

/-- Claim C2: every output row of `load_data` is a debit (its type uppercases
to `DEBIT`) with a normalized category that is neither the transfer/payment
category nor the investment category, and every input row violating this is
excluded from the retained rows. -/
theorem debit_and_category_filter (rows : List RawRow) :
    (∀ s ∈ load_data rows,
        toUpperL s.rtype = "DEBIT".data
          ∧ s.category ≠ "transfer/pmt".data ∧ s.category ≠ "investment".data)
      ∧ (∀ r ∈ rows,
          (toUpperL r.rtype ≠ "DEBIT".data
              ∨ catKey r.category = "transfer/pmt".data
              ∨ catKey r.category = "investment".data)
            → r ∉ keptRows rows) := by
  constructor
  · intro s hs
    rcases (mem_load_data rows s).mp hs with ⟨r, hr, hclean⟩
    obtain ⟨-, -, htype, hcat⟩ := (mem_keptRows rows r).mp hr
    have hrt : s.rtype = r.rtype := by rw [← hclean]; rfl
    have hcc : s.category = normCategory r.category := by rw [← hclean]; rfl
    refine ⟨by rw [hrt]; exact of_decide_eq_true htype, ?_, ?_⟩
    · cases hc : r.category with
      | none =>
        rw [hcc, hc]
        decide
      | some c =>
        rw [hc] at hcat
        intro he
        apply hcat
        have hkn : catKey (some c) = normCategory (some c) := rfl
        rw [hkn, ← hc, ← hcc, he]
        decide
    · cases hc : r.category with
      | none =>
        rw [hcc, hc]
        decide
      | some c =>
        rw [hc] at hcat
        intro he
        apply hcat
        have hkn : catKey (some c) = normCategory (some c) := rfl
        rw [hkn, ← hc, ← hcc, he]
        decide
  · intro r hr hviol hmem
    obtain ⟨-, -, htype, hcat⟩ := (mem_keptRows rows r).mp hmem
    rcases hviol with hv | hv | hv
    · exact hv (of_decide_eq_true htype)
    · exact hcat (by rw [hv]; decide)
    · exact hcat (by rw [hv]; decide)

/-- Witness for C2 at a concrete two-row table: the debit grocery row passes,
the transfer row is excluded. -/
theorem debit_and_category_filter_witness :
    toUpperL (cleanRow wRow).rtype = "DEBIT".data
      ∧ xferRow ∉ keptRows [wRow, xferRow] := by
  have h := debit_and_category_filter [wRow, xferRow]
  exact ⟨(h.1 (cleanRow wRow) (by decide)).1,
    h.2 xferRow (by decide) (Or.inr (Or.inl (by decide)))⟩

/-- Counterexample to C3 as stated: on the one-row table `[c3row]` (a
DEBIT-type row whose parsed amount is `40`), the retained row's spend is
`-40`, which is not positive — the code only negates the amount and never
enforces positivity. -/
theorem spend_positive_counterexample :
    ¬ ∀ s ∈ load_data [c3row], ∀ q : ℚ, s.spend = some q → 0 < q := by
  intro h
  have h2 := h (cleanRow c3row) (by decide) (-40) (by decide)
  norm_num at h2

/-- Claim C3 (amended): for every retained row the derived spend equals the
negation of the parsed amount, and it is positive exactly when the parsed
amount is negative. -/
theorem spend_negation (rows : List RawRow) (s : Row) (hs : s ∈ load_data rows) :
    s.spend = s.amount.map (fun a => -a)
      ∧ ∀ a q : ℚ, s.amount = some a → s.spend = some q → (0 < q ↔ a < 0) := by
  rcases (mem_load_data rows s).mp hs with ⟨r, hr, hclean⟩
  have hsp : s.spend = r.amount.map (fun a => -a) := by rw [← hclean]; rfl
  have ham : s.amount = r.amount := by rw [← hclean]; rfl
  constructor
  · rw [hsp, ham]
  · intro a q ha hq
    rw [ham] at ha
    rw [hsp, ha] at hq
    simp only [Option.map_some', Option.some.injEq] at hq
    rw [← hq]
    exact neg_pos

/-- Witness for the amended C3 at a concrete input. -/
theorem spend_negation_witness :
    (cleanRow c3row).spend = (cleanRow c3row).amount.map (fun a => -a) :=
  (spend_negation [c3row] (cleanRow c3row) (by decide)).1

/-- Claim C4: a row whose date failed to parse is never retained (so it feeds
no month group and no aggregate), a retained row whose amount failed to parse
has a missing spend, and a missing spend contributes zero to any spend sum;
the pipeline is total, so no error is raised. -/
theorem malformed_coerced_dropped (rows : List RawRow) (r : RawRow)
    (df1 df2 : List Row) (s : Row) :
    (r.date = none → r ∉ keptRows rows)
      ∧ (r.amount = none → (cleanRow r).spend = none)
      ∧ (s.spend = none → spendSum (df1 ++ s :: df2) = spendSum (df1 ++ df2)) := by
  refine ⟨?_, ?_, ?_⟩
  · intro hd hmem
    obtain ⟨-, hcov, -, -⟩ := (mem_keptRows rows r).mp hmem
    rw [hd] at hcov
    simp [dateCovered] at hcov
  · intro ha
    simp [cleanRow, ha]
  · intro hsp
    simp [spendSum, hsp]

/-- Witness for C4 at a concrete unparseable row. -/
theorem malformed_coerced_dropped_witness :
    badRow ∉ keptRows [badRow] ∧ (cleanRow badRow).spend = none
      ∧ spendSum [cleanRow badRow] = spendSum [] := by
  have h := malformed_coerced_dropped [badRow] badRow [] [] (cleanRow badRow)
  exact ⟨h.1 rfl, h.2.1 rfl, h.2.2 rfl⟩

/-- Claim C5: `main` warns and stops when `load_data`'s table is empty, warns
and stops when the user-filtered table is empty, and renders only nonempty
filtered tables. -/
theorem empty_result_warning (df : List Row) (range : Option (Date × Date))
    (cats : List (List Char)) :
    (df = [] → mainFilterStage df range cats = .warnNoData)
      ∧ (df ≠ [] → applyCategoryFilter (applyDateRange df range) cats = []
          → mainFilterStage df range cats = .warnNoFiltered)
      ∧ (∀ out, mainFilterStage df range cats = .rendered out
          → df ≠ [] ∧ out ≠ []) := by
  refine ⟨?_, ?_, ?_⟩
  · intro h
    simp [mainFilterStage, h]
  · intro h1 h2
    simp [mainFilterStage, h1, h2]
  · intro out hout
    by_cases h1 : df.isEmpty
    · simp [mainFilterStage, h1] at hout
    · by_cases h2 : (applyCategoryFilter (applyDateRange df range) cats).isEmpty
      · simp [mainFilterStage, h1, h2] at hout
      · have hout2 : applyCategoryFilter (applyDateRange df range) cats = out := by
          simp only [mainFilterStage] at hout
          rw [if_neg h1, if_neg h2] at hout
          exact MainResult.rendered.inj hout
        have hh1 : df ≠ [] := by
          intro he
          rw [he] at h1
          exact h1 rfl
        have hh2 : out ≠ [] := by
          intro he
          rw [hout2, he] at h2
          exact h2 rfl
        exact ⟨hh1, hh2⟩

/-- Witness for C5 at the empty table. -/
theorem empty_result_warning_witness :
    mainFilterStage [] none [] = MainResult.warnNoData :=
  (empty_result_warning [] none []).1 rfl

/-- Claim C6: every category stored by `load_data` is already trimmed and
lowercased — re-applying strip and lower leaves it unchanged — and a row with
a missing category gets the literal `"(uncategorized)"`. -/
theorem category_normalization (rows : List RawRow) (s : Row)
    (hs : s ∈ load_data rows) :
    trimL s.category = s.category
      ∧ toLowerL s.category = s.category
      ∧ toLowerL (trimL s.category) = s.category
      ∧ ∃ r ∈ rows, s = cleanRow r
          ∧ (r.category = none → s.category = "(uncategorized)".data) := by
  rcases (mem_load_data rows s).mp hs with ⟨r, hr, hclean⟩
  have hrows : r ∈ rows := ((mem_keptRows rows r).mp hr).1
  have hcat : s.category = toLowerL (trimL (r.category.getD "(uncategorized)".data)) := by
    rw [← hclean]
    rfl
  have h1 : trimL s.category = s.category := by
    rw [hcat, trimL_toLowerL, trimL_trimL]
  have h2 : toLowerL s.category = s.category := by
    rw [hcat, toLowerL_toLowerL]
  refine ⟨h1, h2, by rw [h1, h2], r, hrows, hclean.symm, ?_⟩
  intro hnone
  rw [hcat, hnone]
  decide

/-- Witness for C6 at a concrete row with a missing category. -/
theorem category_normalization_witness :
    trimL (cleanRow uncatRow).category = (cleanRow uncatRow).category
      ∧ toLowerL (cleanRow uncatRow).category = (cleanRow uncatRow).category :=
  ⟨(category_normalization [uncatRow] (cleanRow uncatRow) (by decide)).1,
   (category_normalization [uncatRow] (cleanRow uncatRow) (by decide)).2.1⟩

/-- Claim C7: no row whose trimmed lowercased category is `"transfer/pmt"`
survives `load_data`, and none survives `load_expenses`. -/
theorem transfer_pmt_excluded (rows : List RawRow) :
    (∀ s ∈ load_data rows, s.category ≠ "transfer/pmt".data)
      ∧ (∀ t ∈ load_expenses rows, catKey t.category ≠ "transfer/pmt".data) := by
  constructor
  · intro s hs he
    rcases (mem_load_data rows s).mp hs with ⟨r, hr, hclean⟩
    obtain ⟨-, -, -, hcat⟩ := (mem_keptRows rows r).mp hr
    have hcc : s.category = normCategory r.category := by rw [← hclean]; rfl
    cases hc : r.category with
    | none =>
      rw [hcc, hc] at he
      exact absurd he (by decide)
    | some c =>
      apply hcat
      rw [hc]
      have hkn : catKey (some c) = normCategory (some c) := rfl
      rw [hkn, ← hc, ← hcc, he]
      decide
  · intro t ht he
    have hf := (List.mem_filter.mp ht).2
    simp only [Bool.not_eq_true', decide_eq_false_iff_not] at hf
    exact hf he

/-- Witness for C7 at a concrete table. -/
theorem transfer_pmt_excluded_witness :
    (cleanRow wRow).category ≠ "transfer/pmt".data
      ∧ catKey wRow.category ≠ "transfer/pmt".data :=
  ⟨(transfer_pmt_excluded [wRow]).1 (cleanRow wRow) (by decide),
   (transfer_pmt_excluded [wRow]).2 wRow (by decide)⟩

/-- Claim C8: `load_data` only filters rows and derives columns: its output is
the image under `cleanRow` of a sublist of the input, every output row keeps
its originating row's date, amount and type verbatim, its category is the
stated normalization, and the added `month`, `month_start` and `spend` columns
are the stated derivations; no row is fabricated. -/
theorem filter_only_invariant (rows : List RawRow) :
    (∃ kept : List RawRow, kept.Sublist rows ∧ load_data rows = kept.map cleanRow)
      ∧ (∀ s ∈ load_data rows, ∃ r ∈ rows,
          s = cleanRow r
            ∧ s.date = r.date ∧ s.amount = r.amount ∧ s.rtype = r.rtype
            ∧ s.category = normCategory r.category
            ∧ s.month = r.date.map monthOf
            ∧ s.month_start = r.date.map (fun d => monthStartOf (monthOf d))
            ∧ s.spend = r.amount.map (fun a => -a))
      ∧ (load_data rows).length ≤ rows.length := by
  have hsub : (keptRows rows).Sublist rows :=
    ((List.filter_sublist _).trans (List.filter_sublist _)).trans (List.filter_sublist _)
  refine ⟨⟨keptRows rows, hsub, rfl⟩, ?_, ?_⟩
  · intro s hs
    rcases (mem_load_data rows s).mp hs with ⟨r, hr, hclean⟩
    have hrows := ((mem_keptRows rows r).mp hr).1
    refine ⟨r, hrows, hclean.symm, ?_, ?_, ?_, ?_, ?_, ?_, ?_⟩ <;> rw [← hclean] <;> rfl
  · rw [show load_data rows = (keptRows rows).map cleanRow from rfl, List.length_map]
    exact hsub.length_le

/-- Witness for C8 at a concrete table. -/
theorem filter_only_invariant_witness :
    (load_data [wRow]).length ≤ [wRow].length :=
  (filter_only_invariant [wRow]).2.2

/-- Claim C9: `main`'s date-range filter retains exactly the rows whose date
lies between the selected start and end dates, both endpoints inclusive. -/
theorem date_range_inclusive (df : List Row) (sd ed : Date) (r : Row) :
    r ∈ applyDateRange df (some (sd, ed)) ↔
      r ∈ df ∧ ∃ d, r.date = some d ∧ dateLE sd d = true ∧ dateLE d ed = true := by
  simp only [applyDateRange, List.mem_filter]
  constructor
  · rintro ⟨hmem, hin⟩
    refine ⟨hmem, ?_⟩
    cases hd : r.date with
    | none =>
      rw [show inDateRange sd ed r = false from by simp [inDateRange, hd]] at hin
      exact absurd hin (by simp)
    | some d =>
      simp only [inDateRange, hd, Bool.and_eq_true_iff] at hin
      exact ⟨d, rfl, hin.1, hin.2⟩
  · rintro ⟨hmem, d, hd, hh1, hh2⟩
    refine ⟨hmem, ?_⟩
    simp [inDateRange, hd, hh1, hh2]

/-- Witness for C9: a row dated exactly on both endpoints is retained, so the
endpoints are inclusive. -/
theorem date_range_inclusive_witness :
    cleanRow wRow ∈ applyDateRange [cleanRow wRow] (some (wDate, wDate)) :=
  (date_range_inclusive [cleanRow wRow] wDate wDate (cleanRow wRow)).mpr
    ⟨by decide, wDate, by decide, by decide, by decide⟩

/-- Claim C10: the correlation heatmap is rendered only over at least two
categories, each having spend data in at least `min_months = 4` distinct
months, and exactly the qualifying categories enter the matrix; with fewer
than two qualifying categories the informational message is shown instead. -/
theorem correlation_threshold (df : List Row) :
    (∀ cats, corrStage df = .heatmap cats →
        2 ≤ cats.length
          ∧ ∀ c, c ∈ cats ↔ (c ∈ categoriesOf df ∧ min_months ≤ catMonthCount df c))
      ∧ (corrStage df = .info ↔ (eligibleCats df).length < 2) := by
  constructor
  · intro cats hcats
    by_cases h : 2 ≤ (eligibleCats df).length
    · rw [show corrStage df = .heatmap (eligibleCats df) from by
        simp only [corrStage, if_pos h]] at hcats
      injection hcats with hceq
      constructor
      · rw [← hceq]
        exact h
      · intro c
        rw [← hceq]
        simp [eligibleCats, List.mem_filter]
    · rw [show corrStage df = .info from by simp only [corrStage, if_neg h]] at hcats
      exact CorrResult.noConfusion hcats
  · constructor
    · intro h
      by_cases h2 : 2 ≤ (eligibleCats df).length
      · rw [show corrStage df = .heatmap (eligibleCats df) from by
          simp only [corrStage, if_pos h2]] at h
        exact CorrResult.noConfusion h
      · omega
    · intro h
      simp only [corrStage, if_neg (by omega : ¬ 2 ≤ (eligibleCats df).length)]

/-- Witness for C10: on the empty table no category qualifies, so the
informational message is shown. -/
theorem correlation_threshold_witness : corrStage [] = CorrResult.info :=
  (correlation_threshold []).2.mpr (by decide)

end Expenses
